import Mathlib

/-!
# Verification of the Deye/SolarmanV5 inverter client

Shallow embedding of the core of the `gpm.deye.solarpanel.tcp` repository:

* `lib/solarmanV5.js` — the SolarmanV5 outer-frame codec, the Modbus RTU/TCP
  ADU builders, the response-shape detector and the auto-detecting register
  parser, together with the transport-mode switch/retry logic of
  `SolarmanV5Client._readRegisters`;
* `lib/registerParser.js` — `decodeRegister` (the seven decode rules) and
  `buildReadRequests` (the greedy range planner);
* `lib/DeyeDevice.js` — the polling scheduler's failure classification
  (`_poll`'s catch branch), the zeroing helper `_applyZeros` and the
  backoff/busy guards.

Buffers are modelled as `List Nat` of byte values; JavaScript numbers used as
integers are modelled as `Nat`/`Int` with explicit `% 2^w` where the source
truncates (`>>> 0`, byte stores), and as `ℚ` where the source computes with
fractional scale factors (JS floats; all values appearing in the claims are
exactly representable).  Fallible code is modelled with `Except String`.
-/

namespace Deye

/-! ## Byte-level helpers (Buffer writeUInt16LE / writeUInt32LE / writeUInt16BE) -/

/-- Little-endian 16-bit serialisation, as `Buffer.writeUInt16LE`. -/
def u16le (n : Nat) : List Nat := [n % 256, n / 256 % 256]

/-- Little-endian 32-bit serialisation, as `Buffer.writeUInt32LE`. -/
def u32le (n : Nat) : List Nat :=
  [n % 256, n / 256 % 256, n / 2 ^ 16 % 256, n / 2 ^ 24 % 256]

/-- Big-endian 16-bit serialisation, as `Buffer.writeUInt16BE`. -/
def u16be (n : Nat) : List Nat := [n / 256 % 256, n % 256]

/-! ## solarmanV5.js — constants -/

def V5_START : Nat := 0xa5
def V5_END : Nat := 0x15
def V5_CTRL_REQUEST : Nat := 0x4510
def V5_CTRL_RESPONSE : Nat := 0x1510
def MODBUS_TCP_HEADER_LEN : Nat := 7

/-! ## solarmanV5.js — CRC16 and V5 checksum -/

/-- One shift round of the Modbus CRC16 (polynomial 0xA001, reflected). -/
def crc16Round (crc : Nat) : Nat :=
  if crc % 2 = 1 then (crc / 2) ^^^ 0xa001 else crc / 2

/-- Folding one byte into the CRC: xor then eight shift rounds. -/
def crc16Byte (crc b : Nat) : Nat :=
  (List.range 8).foldl (fun c _ => crc16Round c) (crc ^^^ b)

/-- `crc16` of solarmanV5.js: initial value 0xFFFF, byte-wise folding. -/
def crc16 (buf : List Nat) : Nat := buf.foldl crc16Byte 0xffff

/-! ## solarmanV5.js — Modbus ADU builders -/

/-- `buildModbusRtuFrame`: unit id, function code, BE register, BE count/value,
LE CRC16 appended. -/
def buildModbusRtuFrame (slaveId fc register valueOrCount : Nat) : List Nat :=
  let frame := [slaveId % 256, fc % 256] ++ u16be register ++ u16be valueOrCount
  frame ++ u16le (crc16 frame)

/-- `buildModbusTcpFrame`: MBAP header (transaction id, protocol id 0,
length `1 + 5`, unit id) followed by the 5-byte PDU; no CRC. -/
def buildModbusTcpFrame (transactionId unitId fc register valueOrCount : Nat) :
    List Nat :=
  u16be (transactionId % 2 ^ 16) ++ u16be 0 ++ u16be 6 ++ [unitId % 256]
    ++ ([fc % 256] ++ u16be register ++ u16be valueOrCount)

/-! ## solarmanV5.js — outer frame codec -/

/-- `encodeV5Frame`: wraps a Modbus ADU in a V5 *request* frame.  The byte at
offset 3–4 is `u16le V5_CTRL_REQUEST = [0x10, 0x45]`; the request prefix is
the frame-type byte `0x02` followed by 14 zero bytes (sensor type, working
time, power-on time, offset time); the trailing checksum is the low byte of
the sum of all bytes strictly between the start marker and the checksum. -/
def encodeV5Frame (modbusFrame : List Nat) (loggerSerial sequence : Nat) :
    List Nat :=
  let body := [V5_START] ++ u16le (15 + modbusFrame.length)
    ++ u16le V5_CTRL_REQUEST ++ u16le sequence ++ u32le loggerSerial
    ++ ([0x02] ++ u16le 0 ++ u32le 0 ++ u32le 0 ++ u32le 0)
    ++ modbusFrame
  body ++ [(body.drop 1).sum % 256, V5_END]

/-- `decodeV5Frame`: validates start/end markers and the *response* control
code, bounds-checks the declared payload length, extracts the bytes from
offset 25 (11-byte header + 14-byte response prefix) to `11 + payloadLen`,
and strips a trailing `00 00` pair if present.  Out-of-range `Buffer` reads
of the source are modelled by `getD _ 0`, which like JavaScript `undefined`
fails the marker comparisons. -/
def decodeV5Frame (v5Frame : List Nat) : Except String (List Nat) :=
  if v5Frame.getD 0 0 ≠ V5_START then .error "Invalid V5 start byte"
  else if v5Frame.getD (v5Frame.length - 1) 0 ≠ V5_END then
    .error "Invalid V5 end byte"
  else
    let ctrl := v5Frame.getD 3 0 + 256 * v5Frame.getD 4 0
    if ctrl ≠ V5_CTRL_RESPONSE then .error "Unexpected V5 control code"
    else
      let payloadLen := v5Frame.getD 1 0 + 256 * v5Frame.getD 2 0
      let modbusEnd := 11 + payloadLen
      if modbusEnd > v5Frame.length - 2 then
        .error "V5 payload length out of bounds"
      else
        let modbus := (v5Frame.take modbusEnd).drop 25
        if 2 ≤ modbus.length ∧ modbus.getD (modbus.length - 2) 1 = 0
            ∧ modbus.getD (modbus.length - 1) 1 = 0 then
          .ok (modbus.take (modbus.length - 2))
        else .ok modbus

/-! ## solarmanV5.js — response-shape detection and register parsing -/

/-- `looksLikeModbusTcp`: length at least header + 2, protocol id (BE at
offset 2) zero, declared MBAP length (BE at offset 4) at least 2.  The
source's comparison of the declared length against the bytes actually
present is an `if` with an empty body, so it has no effect. -/
def looksLikeModbusTcp (frame : List Nat) : Bool :=
  if frame.length < MODBUS_TCP_HEADER_LEN + 2 then false
  else
    let protocolId := 256 * frame.getD 2 0 + frame.getD 3 0
    let len := 256 * frame.getD 4 0 + frame.getD 5 0
    if protocolId ≠ 0 then false
    else if len < 2 then false
    else true

/-- Consecutive big-endian 16-bit reads (`readUInt16BE`) starting at `pos`,
one per two bytes of `bytesLeft`, as the `for (i = 0; i < byteCount; i += 2)`
loop; a read past the end of the buffer raises, as in Node. -/
def readWordsBE (adu : List Nat) : Nat → Nat → Except String (List Nat)
  | _, 0 => .ok []
  | pos, 1 =>
    if pos + 2 ≤ adu.length then
      .ok [256 * adu.getD pos 0 + adu.getD (pos + 1) 0]
    else .error "Attempt to access memory outside buffer bounds"
  | pos, n + 2 =>
    if pos + 2 ≤ adu.length then
      match readWordsBE adu (pos + 2) n with
      | .ok rest => .ok ((256 * adu.getD pos 0 + adu.getD (pos + 1) 0) :: rest)
      | .error e => .error e
    else .error "Attempt to access memory outside buffer bounds"

/-- The Modbus-TCP path of `parseRegistersAuto`: exception bit, function-code
match, then `byteCount / 2` register reads from offset 9. -/
def parseTcpPath (adu : List Nat) (expectedFc : Nat) : Except String (List Nat) :=
  let fc := adu.getD 7 0
  if fc &&& 0x80 ≠ 0 then
    .error ("Modbus TCP exception code: " ++ toString (adu.getD 8 0))
  else if fc ≠ expectedFc then .error "Unexpected Modbus TCP FC"
  else readWordsBE adu 9 (adu.getD 8 0)

/-- The Modbus-RTU path of `parseRegistersAuto`: minimum length, exception
bit, function-code match, then `byteCount / 2` register reads from offset 3. -/
def parseRtuPath (adu : List Nat) (expectedFc : Nat) : Except String (List Nat) :=
  if adu.length < 5 then .error "Invalid Modbus RTU frame (too short)"
  else
    let fc := adu.getD 1 0
    if fc &&& 0x80 ≠ 0 then
      .error ("Modbus RTU exception code: " ++ toString (adu.getD 2 0))
    else if fc ≠ expectedFc then .error "Unexpected Modbus RTU FC"
    else readWordsBE adu 3 (adu.getD 2 0)

/-- `parseRegistersAuto`: the TCP path when `looksLikeModbusTcp`, the RTU
path otherwise. -/
def parseRegistersAuto (adu : List Nat) (expectedFc : Nat) :
    Except String (List Nat) :=
  if looksLikeModbusTcp adu then parseTcpPath adu expectedFc
  else parseRtuPath adu expectedFc

/-! ## solarmanV5.js — `SolarmanV5Client._readRegisters` transport logic

The client state relevant to the claims is the persistent transport mode.
One exchange (encode, send, receive, `decodeV5Frame`) is abstracted as
consuming the next extracted response ADU from a list; `_readRegisters`
then parses it, switches `rtu → tcp` when the response looks TCP-shaped,
and on a parse error in RTU mode with a TCP-shaped response re-issues the
request once (the recursive call, which runs with the already-switched
transport).  The `Nat` component counts the requests issued. -/

inductive Transport where
  | rtu
  | tcp
  deriving DecidableEq, Repr

/-- `_readRegisters` over a stream of extracted response ADUs: returns the
parse outcome, the transport mode after the call, and how many requests were
issued (1 = no retry, 2 = one retry). -/
def readRegistersCore (t : Transport) (expectedFc : Nat)
    (responses : List (List Nat)) :
    Except String (List Nat) × Transport × Nat :=
  match responses with
  | [] => (.error "Socket closed before response", t, 1)
  | adu :: rest =>
    match parseRegistersAuto adu expectedFc with
    | .ok values =>
      (.ok values,
       if t = .rtu ∧ looksLikeModbusTcp adu then .tcp else t, 1)
    | .error e =>
      if t = .rtu ∧ looksLikeModbusTcp adu then
        let res := readRegistersCore .tcp expectedFc rest
        (res.1, res.2.1, res.2.2 + 1)
      else (.error e, t, 1)

/-! ## registerParser.js — register definitions and `decodeRegister` -/

/-- A lookup-table key: `number | number[]` in the source. -/
inductive LookupKey where
  | one (n : Nat)
  | many (ks : List Nat)
  deriving DecidableEq, Repr

/-- `Array.isArray(entry.key) ? entry.key : [entry.key]`. -/
def LookupKey.keys : LookupKey → List Nat
  | .one n => [n]
  | .many ks => ks

structure LookupEntry where
  key : LookupKey
  value : String
  deriving DecidableEq, Repr

/-- A register definition; optional fields default as in the source
(`scale ?? 1`, `offset ?? 0`, `fc ?? 3`).  Scale and offset are modelled as
exact rationals (JS doubles; every value in the claims is representable). -/
structure RegisterDef where
  name : String
  rule : Nat
  registers : List Nat
  scale : Option ℚ
  offset : Option ℚ
  fc : Option Nat
  lookup : Option (List LookupEntry)
  homeyCapability : Option String
  deriving DecidableEq, Repr

/-- A decoded value: `number | string` (absence is `Option.none` outside). -/
inductive DecodedValue where
  | num (q : ℚ)
  | str (s : String)
  deriving DecidableEq, Repr

/-- The accumulation loop of rules 1–4:
`raw += (registerMap.get(regs[i]) & 0xffff) * Math.pow(2, 16 * i)`. -/
def rawAccum (regs : List Nat) (registerMap : Nat → Option Nat) : Nat :=
  (List.range regs.length).foldl
    (fun acc i => acc + ((registerMap (regs.getD i 0)).getD 0 % 65536) * 2 ^ (16 * i)) 0

/-- First lookup entry whose key set contains `raw`. -/
def lookupFind (entries : List LookupEntry) (raw : Nat) : Option String :=
  match entries with
  | [] => none
  | e :: rest => if e.key.keys.contains raw then some e.value else lookupFind rest raw

/-- Rule 5 string assembly: per register append `chr(hi)` then `chr(lo)`,
each only when nonzero, then trim. -/
def rule5String (regs : List Nat) (registerMap : Nat → Option Nat) : String :=
  (regs.foldl (fun s a =>
    let r := (registerMap a).getD 0
    let hi := r / 256 % 256
    let lo := r % 256
    let s' := if hi ≠ 0 then s.push (Char.ofNat hi) else s
    if lo ≠ 0 then s'.push (Char.ofNat lo) else s') "").trim

/-- `'0x' + r.toString(16).padStart(4, '0')`. -/
def hex4 (r : Nat) : String :=
  let s := String.mk (Nat.toDigits 16 r)
  "0x" ++ String.mk (List.replicate (4 - s.length) '0') ++ s

/-- Rule 7 per-register nibble rendering. -/
def verNibbles (r : Nat) : String :=
  toString (r / 2 ^ 12 % 16) ++ "." ++ toString (r / 2 ^ 8 % 16) ++ "."
    ++ toString (r / 16 % 16) ++ "." ++ toString (r % 16)

/-- `decodeRegister`: absent (`none`) when any needed address is missing or
the rule is unrecognised; otherwise the rule table.  The `raw >>> 0` of
rules 1/3 is `% 2 ^ 32`; the sign-extension test `raw >= wrap / 2` of rules
2/4 is `2 * raw ≥ wrap` (exact, also for an empty register list where the
source compares against the float `0.5`). -/
def decodeRegister (d : RegisterDef) (registerMap : Nat → Option Nat) :
    Option DecodedValue :=
  if d.registers.any (fun a => (registerMap a).isNone) then none
  else
    let scale := d.scale.getD 1
    let offset := d.offset.getD 0
    if d.rule = 1 ∨ d.rule = 3 then
      let raw := rawAccum d.registers registerMap % 2 ^ 32
      match d.lookup with
      | some entries =>
        match lookupFind entries raw with
        | some v => some (.str v)
        | none => some (.str ("Unknown(" ++ toString raw ++ ")"))
      | none => some (.num (((raw : ℚ) - offset) * scale))
    else if d.rule = 2 ∨ d.rule = 4 then
      let raw := rawAccum d.registers registerMap
      let wrap := 2 ^ (16 * d.registers.length)
      let signed : Int := if 2 * raw ≥ wrap then (raw : Int) - (wrap : Int) else (raw : Int)
      some (.num (((signed : ℚ) - offset) * scale))
    else if d.rule = 5 then
      some (.str (rule5String d.registers registerMap))
    else if d.rule = 6 then
      some (.str (String.intercalate ","
        (d.registers.map (fun a => hex4 ((registerMap a).getD 0)))))
    else if d.rule = 7 then
      some (.str (String.intercalate "-"
        (d.registers.map (fun a => verNibbles ((registerMap a).getD 0)))))
    else none

/-! ## registerParser.js — `buildReadRequests` -/

structure ReadReq where
  fc : Nat
  start : Nat
  count : Nat
  deriving DecidableEq, Repr

/-- `def.fc ?? 3`. -/
def effFc (d : RegisterDef) : Nat := d.fc.getD 3

/-- `if (!byFc.has(fc)) byFc.set(fc, new Set())` — key order is first
appearance. -/
def insertKey (l : List Nat) (k : Nat) : List Nat :=
  if l.contains k then l else l ++ [k]

/-- The function codes of `byFc`, in insertion order. -/
def fcKeys (defs : List RegisterDef) : List Nat :=
  defs.foldl (fun acc d => insertKey acc (effFc d)) []

/-- All register addresses contributed to the `byFc` set of `fc`. -/
def fcAddrList (defs : List RegisterDef) (fc : Nat) : List Nat :=
  defs.foldl (fun acc d => if effFc d = fc then acc ++ d.registers else acc) []

/-- `[...addrSet].sort((a, b) => a - b)`: the distinct addresses in ascending
order. -/
def sortedAddrs (defs : List RegisterDef) (fc : Nat) : List Nat :=
  List.insertionSort (· ≤ ·) (fcAddrList defs fc).dedup

/-- The greedy merge loop over the sorted distinct addresses: extend the
active range while `addr - start < maxCount`, else close it and start anew;
a final range is always emitted. -/
def mergeRangesAux (fc maxCount : Nat) : Nat → Nat → List Nat → List ReadReq
  | start, e, [] => [⟨fc, start, e - start + 1⟩]
  | start, e, addr :: rest =>
    if addr - start < maxCount then mergeRangesAux fc maxCount start addr rest
    else ⟨fc, start, e - start + 1⟩ :: mergeRangesAux fc maxCount addr addr rest

/-- The requests of one function-code group: merge the sorted distinct
addresses into ranges.  (For an `fc` whose address set is empty — possible
only via definitions with empty register lists — the source would emit a
degenerate `{start: undefined, count: NaN}` request; every claim below
assumes non-empty register lists, where this branch is unreachable.) -/
def fcRequests (defs : List RegisterDef) (maxCount fc : Nat) : List ReadReq :=
  match sortedAddrs defs fc with
  | [] => []
  | a :: rest => mergeRangesAux fc maxCount a a rest

/-- `buildReadRequests`: the merged ranges of every function code, groups in
key-insertion order. -/
def buildReadRequests (defs : List RegisterDef) (maxCount : Nat) : List ReadReq :=
  (fcKeys defs).flatMap (fcRequests defs maxCount)

/-! ## DeyeDevice.js — polling scheduler state and failure handling -/

def POLL_INTERVAL_MS : Nat := 60000
def NIGHT_BACKOFF_MS : Nat := 30 * 60 * 1000
def POWER_THRESHOLD_W : ℚ := 5

/-- The capability list of `_applyZeros` (instantaneous measurements; the
cumulative `meter_power` / `meter_power.today` are deliberately absent). -/
def zeroedCaps : List String :=
  ["measure_power",
   "measure_voltage.pv1", "measure_current.pv1",
   "measure_voltage.pv2", "measure_current.pv2",
   "measure_voltage.pv3", "measure_current.pv3",
   "measure_voltage.pv4", "measure_current.pv4",
   "measure_voltage.grid", "measure_current.grid",
   "measure_frequency",
   "measure_temperature"]

/-- The per-device scheduler state: `_lastPowerW`, `_backoffUntil`,
`_polling`, the availability signal (`setAvailable` / `setUnavailable` with
its message), the capability set of the device and the numeric capability
values. -/
structure PollState where
  lastPowerW : ℚ
  backoffUntil : Nat
  polling : Bool
  available : Bool
  unavailableMsg : Option String
  hasCap : String → Bool
  capValues : String → ℚ

/-- `_applyZeros`: zero every listed capability the device has, and reset
`_lastPowerW`. -/
def applyZeros (s : PollState) : PollState :=
  { s with
    capValues := fun c =>
      if zeroedCaps.contains c && s.hasCap c then 0 else s.capValues c,
    lastPowerW := 0 }

/-- The catch branch of `_poll`: night → zero, stay available, back off
30 minutes; day with `_lastPowerW > POWER_THRESHOLD_W` → unavailable with
the error message; otherwise only a log line (state unchanged). -/
def pollFailure (s : PollState) (now : Nat) (isNight : Bool) (errMsg : String) :
    PollState :=
  if isNight then
    let s1 := applyZeros s
    { s1 with
      available := true
      unavailableMsg := none
      backoffUntil := now + NIGHT_BACKOFF_MS }
  else if s.lastPowerW > POWER_THRESHOLD_W then
    { s with available := false, unavailableMsg := some errMsg }
  else s

/-- The outcome of one `readAll` attempt, as seen by `_poll`: a snapshot of
numeric capability updates, or a failure together with the `_isNight()`
classification at that instant. -/
inductive PollOutcome where
  | success (snapshot : String → Option ℚ)
  | failure (isNight : Bool) (errMsg : String)

/-- The success path of `_poll`: device available, each capability present in
the snapshot and on the device updated, `_lastPowerW` tracking
`measure_power`. -/
def applySuccess (s : PollState) (snapshot : String → Option ℚ) : PollState :=
  { s with
    available := true
    unavailableMsg := none
    capValues := fun c =>
      match snapshot c with
      | some v => if s.hasCap c then v else s.capValues c
      | none => s.capValues c
    lastPowerW :=
      match snapshot "measure_power" with
      | some v => if s.hasCap "measure_power" then v else s.lastPowerW
      | none => s.lastPowerW }

/-- One timer tick of `_poll`: a no-op while `now < _backoffUntil` or a poll
is in flight, else the success/failure handling.  The boolean reports whether
a poll was performed; `_polling` is set on entry and cleared in `finally`, so
its net effect is the identity. -/
def pollTick (s : PollState) (now : Nat) (outcome : PollOutcome) :
    PollState × Bool :=
  if now < s.backoffUntil then (s, false)
  else if s.polling then (s, false)
  else
    match outcome with
    | .success snap => (applySuccess s snap, true)
    | .failure night msg => (pollFailure s now night msg, true)

/-- A sequence of poll failures, each with its time, night classification and
error message, applied in order. -/
def foldFailures (s : PollState) (events : List (Nat × Bool × String)) :
    PollState :=
  events.foldl (fun st e => pollFailure st e.1 e.2.1 e.2.2) s

/-! ## The spec's reading of the shape detector (for claim C7) -/

/-- Following the spec's words, for comparison with `looksLikeModbusTcp`:
the protocol-id field reads zero AND the declared MBAP length is internally
plausible with respect to the bytes actually present (at least unit + fc,
and not exceeding the available bytes beyond the source's own two-byte
slack). -/
def specLooksLikeModbusTcp (frame : List Nat) : Bool :=
  decide (MODBUS_TCP_HEADER_LEN + 2 ≤ frame.length)
    && decide (256 * frame.getD 2 0 + frame.getD 3 0 = 0)
    && decide (2 ≤ 256 * frame.getD 4 0 + frame.getD 5 0)
    && decide (MODBUS_TCP_HEADER_LEN + (256 * frame.getD 4 0 + frame.getD 5 0)
        ≤ frame.length + 2)

/-- The spec's accumulation formula for decode rules 1–4, written as the
direct sum `Σ (map[addr_i] & 0xFFFF) × 2^(16·i)` with the low register
first (`i` is the index of the first register), for comparison with the
source's accumulation loop `rawAccum`. -/
def specRawWordSum (regs : List Nat) (m : Nat → Option Nat) (i : Nat) : Nat :=
  match regs with
  | [] => 0
  | a :: rest =>
    ((m a).getD 0 % 65536) * 2 ^ (16 * i) + specRawWordSum rest m (i + 1)

/-! ## General helper lemmas -/

theorem getD_concat_last (l : List Nat) (x y : Nat) :
    (l ++ [x, y]).getD ((l ++ [x, y]).length - 1) 0 = y := by
  have h : (l ++ [x, y]).length - 1 = l.length + 1 := by
    simp [List.length_append]
  rw [h, List.getD_eq_getElem?_getD, List.getElem?_append_right (by omega)]
  simp

/-! ## Claim C1 — outer-frame round trip -/

/-- C1 (counterexample): decoding the outer frame built by `encodeV5Frame`
does *not* recover the wrapped ADU — for the concrete RTU read request
`buildModbusRtuFrame 1 3 0 1`, serial 1 and sequence 1, `decodeV5Frame`
rejects the frame instead of returning the ADU. -/
theorem c1_roundtrip_counterexample :
    decodeV5Frame (encodeV5Frame (buildModbusRtuFrame 1 3 0 1) 1 1)
      ≠ Except.ok (buildModbusRtuFrame 1 3 0 1) := by
  intro hcontra
  have h : decodeV5Frame (encodeV5Frame (buildModbusRtuFrame 1 3 0 1) 1 1)
      = .error "Unexpected V5 control code" := rfl
  rw [h] at hcontra
  exact Except.noConfusion hcontra

/-- C1 (amended): for every Modbus ADU, logger serial and sequence number,
`decodeV5Frame` rejects the frame built by `encodeV5Frame` with an
unexpected-control-code error: `encodeV5Frame` writes the *request* control
code 0x4510 while `decodeV5Frame` accepts only the *response* control code
0x1510 (and skips a 14-byte response prefix where the request carries a
15-byte one), so no round trip between the two functions holds. -/
theorem c1_decode_of_encode_is_control_error
    (modbusFrame : List Nat) (loggerSerial sequence : Nat) :
    decodeV5Frame (encodeV5Frame modbusFrame loggerSerial sequence)
      = .error "Unexpected V5 control code" := by
  have h0 : (encodeV5Frame modbusFrame loggerSerial sequence).getD 0 0
      = V5_START := rfl
  have h3 : (encodeV5Frame modbusFrame loggerSerial sequence).getD 3 0
      = 0x10 := rfl
  have h4 : (encodeV5Frame modbusFrame loggerSerial sequence).getD 4 0
      = 0x45 := rfl
  have hlast : (encodeV5Frame modbusFrame loggerSerial sequence).getD
      ((encodeV5Frame modbusFrame loggerSerial sequence).length - 1) 0
      = V5_END := getD_concat_last _ _ _
  unfold decodeV5Frame
  rw [h0, h3, h4, hlast]
  simp [V5_START, V5_END, V5_CTRL_RESPONSE]

/-! ## Claim C2 — transport auto-switch and retry -/

/-- C2 (counterexample): a client in RTU mode receiving a well-formed
TCP-shaped response ADU (protocol id 0, fc 3, one register of value 4660)
does *not* re-issue the request: the response parses successfully, exactly
one request is issued, and only the mode switch to TCP happens. -/
theorem c2_no_retry_counterexample :
    looksLikeModbusTcp [0, 1, 0, 0, 0, 5, 1, 3, 2, 0x12, 0x34] = true ∧
    readRegistersCore .rtu 3 [[0, 1, 0, 0, 0, 5, 1, 3, 2, 0x12, 0x34]]
      = (.ok [4660], .tcp, 1) := ⟨rfl, rfl⟩

/-- C2 (amended): in RTU mode, a TCP-shaped response that *parses
successfully* is accepted with no retry while the persistent transport mode
switches to TCP; only when parsing the TCP-shaped response throws is the
same request re-issued exactly once (under the already-switched mode); and
in TCP mode every exchange issues exactly one request, returns the parse
outcome as is, and keeps the mode TCP — so a later TCP-shaped response needs
no retry and a later parse failure surfaces as an error. -/
theorem c2_transport_switch (fc : Nat) (adu : List Nat)
    (rest : List (List Nat)) (h : looksLikeModbusTcp adu = true) :
    (∀ vs, parseRegistersAuto adu fc = .ok vs →
        readRegistersCore .rtu fc (adu :: rest) = (.ok vs, .tcp, 1)) ∧
    (∀ e, parseRegistersAuto adu fc = .error e →
        readRegistersCore .rtu fc (adu :: rest)
          = ((readRegistersCore .tcp fc rest).1,
             (readRegistersCore .tcp fc rest).2.1,
             (readRegistersCore .tcp fc rest).2.2 + 1)) ∧
    (∀ adu2 rest2, readRegistersCore .tcp fc (adu2 :: rest2)
        = (parseRegistersAuto adu2 fc, .tcp, 1)) := by
  refine ⟨?_, ?_, ?_⟩
  · intro vs hvs
    simp [readRegistersCore, hvs, h]
  · intro e he
    simp [readRegistersCore, he, h]
  · intro adu2 rest2
    cases hp : parseRegistersAuto adu2 fc with
    | ok vs => simp [readRegistersCore, hp]
    | error e => simp [readRegistersCore, hp]

/-- C2 (witness): a successful TCP-shaped response in RTU mode → one
request, mode TCP; a TCP-shaped response with the wrong function code in
RTU mode → one retry (two requests), mode TCP, second response accepted. -/
theorem c2_transport_switch_witness :
    readRegistersCore .rtu 3 [[0, 7, 0, 0, 0, 5, 1, 3, 2, 0, 42]]
      = (.ok [42], .tcp, 1) ∧
    readRegistersCore .rtu 3
      [[0, 7, 0, 0, 0, 5, 1, 4, 2, 0, 42], [0, 7, 0, 0, 0, 5, 1, 3, 2, 0, 42]]
      = (.ok [42], .tcp, 2) := by
  constructor
  · exact (c2_transport_switch 3 [0, 7, 0, 0, 0, 5, 1, 3, 2, 0, 42] [] rfl).1
      [42] rfl
  · have h := (c2_transport_switch 3 [0, 7, 0, 0, 0, 5, 1, 4, 2, 0, 42]
      [[0, 7, 0, 0, 0, 5, 1, 3, 2, 0, 42]] rfl).2.1
      "Unexpected Modbus TCP FC" rfl
    rw [h]
    rfl

/-! ## Claim C7 — response-shape classification -/

/-- C7 (counterexample): the 9-byte ADU `[0,0,0,0,3,0xe8,1,3,2]` declares an
MBAP length of 1000 with only 9 bytes present — not internally plausible —
yet `looksLikeModbusTcp` classifies it as Modbus-TCP-framed, so the claimed
equivalence fails at this input. -/
theorem c7_plausibility_counterexample :
    looksLikeModbusTcp [0, 0, 0, 0, 3, 0xe8, 1, 3, 2] = true ∧
    specLooksLikeModbusTcp [0, 0, 0, 0, 3, 0xe8, 1, 3, 2] = false := ⟨rfl, rfl⟩

/-- C7 (amended): an extracted ADU is treated as Modbus-TCP-framed iff it is
at least 9 bytes long, its protocol-id field (bytes 2–3 BE) reads zero and
its declared MBAP length is at least 2 — the declared length is *not*
checked against the bytes actually present (that comparison in the source is
an empty `if`); any ADU not classified as TCP is parsed as Modbus-RTU. -/
theorem c7_shape_classification (frame : List Nat) :
    (looksLikeModbusTcp frame = true ↔
      (MODBUS_TCP_HEADER_LEN + 2 ≤ frame.length ∧
       256 * frame.getD 2 0 + frame.getD 3 0 = 0 ∧
       2 ≤ 256 * frame.getD 4 0 + frame.getD 5 0)) ∧
    (∀ fc, parseRegistersAuto frame fc =
      if looksLikeModbusTcp frame then parseTcpPath frame fc
      else parseRtuPath frame fc) := by
  constructor
  · simp only [looksLikeModbusTcp, MODBUS_TCP_HEADER_LEN]
    split_ifs with h1 h2 h3
    · exact iff_of_false (by simp) (fun hc => absurd hc.1 (by omega))
    · exact iff_of_false (by simp) (fun hc => h2 hc.2.1)
    · exact iff_of_false (by simp) (fun hc => absurd hc.2.2 (by omega))
    · exact iff_of_true (by simp) ⟨by omega, by omega, by omega⟩
  · intro fc
    rfl

/-! ## Claims C3, C9, C10 — polling scheduler -/

/-- A concrete device state used by the scheduler witnesses: producing 10 W,
no backoff, not polling, available, with `measure_power` (instantaneous) and
`meter_power` (cumulative) capabilities all reading 3. -/
def sampleState : PollState where
  lastPowerW := 10
  backoffUntil := 0
  polling := false
  available := true
  unavailableMsg := none
  hasCap := fun c => c == "measure_power" || c == "meter_power"
  capValues := fun _ => 3

/-- C3: on a poll failure, (night) every instantaneous capability the device
has is zeroed while non-listed (cumulative) capabilities are untouched, the
device is available and a 30-minute backoff starts; (day, last power > 5)
the device becomes unavailable with the error attached and the snapshot is
untouched; (day, last power ≤ 5) the state is unchanged. -/
theorem c3_failure_classification (s : PollState) (now : Nat) (msg : String) :
    ((pollFailure s now true msg).available = true ∧
     (pollFailure s now true msg).backoffUntil = now + NIGHT_BACKOFF_MS ∧
     (∀ c, zeroedCaps.contains c = true → s.hasCap c = true →
        (pollFailure s now true msg).capValues c = 0) ∧
     (∀ c, zeroedCaps.contains c = false →
        (pollFailure s now true msg).capValues c = s.capValues c)) ∧
    (s.lastPowerW > POWER_THRESHOLD_W →
      (pollFailure s now false msg).available = false ∧
      (pollFailure s now false msg).unavailableMsg = some msg ∧
      (pollFailure s now false msg).capValues = s.capValues) ∧
    (s.lastPowerW ≤ POWER_THRESHOLD_W → pollFailure s now false msg = s) := by
  refine ⟨⟨?_, ?_, ?_, ?_⟩, ?_, ?_⟩
  · simp [pollFailure]
  · simp [pollFailure]
  · intro c h1 h2
    have h1' : c ∈ zeroedCaps := by simpa using h1
    simp [pollFailure, applyZeros, h1', h2]
  · intro c h1
    have h1' : c ∉ zeroedCaps := by simpa using h1
    simp [pollFailure, applyZeros, h1']
  · intro h
    simp [pollFailure, h]
  · intro h
    simp [pollFailure, not_lt.mpr h]

/-- C3 (witness): the classification at `sampleState`. -/
theorem c3_failure_classification_witness :
    (pollFailure sampleState 5 true "err").available = true ∧
    (pollFailure sampleState 5 true "err").backoffUntil = 5 + NIGHT_BACKOFF_MS ∧
    (pollFailure sampleState 5 true "err").capValues "measure_power" = 0 ∧
    (pollFailure sampleState 5 true "err").capValues "meter_power" = 3 ∧
    (pollFailure sampleState 5 false "err").available = false := by
  obtain ⟨hn, hd, -⟩ := c3_failure_classification sampleState 5 "err"
  refine ⟨hn.1, hn.2.1, hn.2.2.1 "measure_power" rfl rfl, ?_, ?_⟩
  · rw [hn.2.2.2 "meter_power" rfl]
    rfl
  · exact (hd (by norm_num [sampleState, POWER_THRESHOLD_W])).1

/-- C9: a tick arriving while `now < backoffUntil` or while a poll is in
flight performs no poll and leaves the state unchanged; after a night
failure at `now`, every tick strictly before `now + 30 min` is such a
no-op. -/
theorem c9_tick_guard (s : PollState) (now : Nat) (o : PollOutcome) :
    ((now < s.backoffUntil ∨ s.polling = true) →
        pollTick s now o = (s, false)) ∧
    (∀ msg t o₂, t < now + NIGHT_BACKOFF_MS →
        pollTick (pollFailure s now true msg) t o₂
          = (pollFailure s now true msg, false)) := by
  constructor
  · rintro (h | h)
    · simp [pollTick, h]
    · simp [pollTick, h]
  · intro msg t o₂ ht
    have hb : (pollFailure s now true msg).backoffUntil
        = now + NIGHT_BACKOFF_MS := by simp [pollFailure]
    simp [pollTick, hb, ht]

/-- C9 (witness): a tick inside a backoff window, and ticks after a night
failure, are no-ops. -/
theorem c9_tick_guard_witness :
    pollTick ⟨0, 50, false, true, none, fun _ => false, fun _ => 0⟩ 10
        (.failure false "e")
      = (⟨0, 50, false, true, none, fun _ => false, fun _ => 0⟩, false) ∧
    pollTick (pollFailure sampleState 5 true "err") 100 (.failure false "e")
      = (pollFailure sampleState 5 true "err", false) := by
  constructor
  · exact (c9_tick_guard _ 10 _).1 (Or.inl (by norm_num))
  · exact (c9_tick_guard sampleState 5 (.failure false "e")).2 "err" 100 _
      (by norm_num [NIGHT_BACKOFF_MS])

/-- Failure handling keeps an available, at-threshold-or-idle device
available and at or below the threshold. -/
theorem pollFailure_keeps_available (s : PollState) (h1 : s.available = true)
    (h2 : s.lastPowerW ≤ POWER_THRESHOLD_W) (n : Nat) (night : Bool)
    (m : String) :
    (pollFailure s n night m).available = true ∧
    (pollFailure s n night m).lastPowerW ≤ POWER_THRESHOLD_W := by
  cases night with
  | false =>
    simp only [pollFailure, if_neg (Bool.false_ne_true), if_neg (not_lt.mpr h2)]
    exact ⟨h1, h2⟩
  | true =>
    refine ⟨by simp [pollFailure], ?_⟩
    simp only [pollFailure, if_pos rfl, applyZeros]
    norm_num [POWER_THRESHOLD_W]

/-- Any failure sequence starting from an available device at or below the
power threshold leaves it available. -/
theorem foldFailures_available :
    ∀ (events : List (Nat × Bool × String)) (s : PollState),
      s.available = true → s.lastPowerW ≤ POWER_THRESHOLD_W →
      (foldFailures s events).available = true := by
  intro events
  induction events with
  | nil => intro s h1 _; simpa [foldFailures] using h1
  | cons e rest ih =>
    intro s h1 h2
    have h := pollFailure_keeps_available s h1 h2 e.1 e.2.1 e.2.2
    simpa [foldFailures] using ih (pollFailure s e.1 e.2.1 e.2.2) h.1 h.2

/-- C10: a night failure resets the stored last-known power to 0 (via the
zeroing helper); a day failure at or below the threshold takes the
idle-daytime branch and changes nothing; and after a night failure every
subsequent failure sequence — before any successful poll updates the power —
leaves the device available (never unreachable), regardless of the power
recorded before the night failure. -/
theorem c10_night_resets_power (s : PollState) (now : Nat) (msg : String) :
    (pollFailure s now true msg).lastPowerW = 0 ∧
    (∀ s₂ : PollState, s₂.lastPowerW ≤ POWER_THRESHOLD_W →
      ∀ n m, pollFailure s₂ n false m = s₂) ∧
    (∀ events,
      (foldFailures (pollFailure s now true msg) events).available = true) := by
  refine ⟨by simp [pollFailure, applyZeros], ?_, ?_⟩
  · intro s₂ h n m
    simp [pollFailure, not_lt.mpr h]
  · intro events
    apply foldFailures_available
    · simp [pollFailure]
    · simp only [pollFailure, if_pos rfl, applyZeros]
      norm_num [POWER_THRESHOLD_W]

/-- C10 (witness): at `sampleState` (which was producing 10 W), a night
failure zeroes the stored power, an idle day failure is a no-op, and a
day-then-night failure sequence after the night failure never marks the
device unreachable. -/
theorem c10_night_resets_power_witness :
    (pollFailure sampleState 5 true "err").lastPowerW = 0 ∧
    pollFailure ⟨0, 0, false, true, none, fun _ => false, fun _ => 0⟩ 7 false "e"
      = ⟨0, 0, false, true, none, fun _ => false, fun _ => 0⟩ ∧
    (foldFailures (pollFailure sampleState 5 true "err")
        [(100, false, "day"), (200, true, "night")]).available = true := by
  obtain ⟨h1, h2, h3⟩ := c10_night_resets_power sampleState 5 "err"
  exact ⟨h1, h2 _ (by norm_num [POWER_THRESHOLD_W]) 7 "e", h3 _⟩

/-! ## Claim C8 — decodeRegister totality -/

/-- C8: `decodeRegister` is a total function (it is defined for every
definition and register map and never raises); it returns the absent value
whenever some required address is missing from the map or the rule is not
one of 1–7, and it returns a present value only when all required addresses
are present. -/
theorem c8_decode_total (d : RegisterDef) (m : Nat → Option Nat) :
    ((∃ a ∈ d.registers, m a = none) → decodeRegister d m = none) ∧
    ((d.rule < 1 ∨ 7 < d.rule) → decodeRegister d m = none) ∧
    (decodeRegister d m ≠ none → ∀ a ∈ d.registers, (m a).isSome = true) := by
  have hguard : (∃ a ∈ d.registers, m a = none) →
      (d.registers.any fun a => (m a).isNone) = true := by
    rintro ⟨a, ha, hm⟩
    simp only [List.any_eq_true]
    exact ⟨a, ha, by simp [hm]⟩
  refine ⟨?_, ?_, ?_⟩
  · intro h
    simp [decodeRegister, hguard h]
  · intro h
    have h13 : ¬(d.rule = 1 ∨ d.rule = 3) := by omega
    have h24 : ¬(d.rule = 2 ∨ d.rule = 4) := by omega
    have h5 : d.rule ≠ 5 := by omega
    have h6 : d.rule ≠ 6 := by omega
    have h7 : d.rule ≠ 7 := by omega
    simp [decodeRegister, h13, h24, h5, h6, h7]
  · intro h a ha
    by_cases hm : (m a).isSome
    · exact hm
    · exact absurd
        (by simp [decodeRegister,
          hguard ⟨a, ha, Option.not_isSome_iff_eq_none.mp hm⟩]) h

/-- C8 (witness): a missing address yields `none`; an unknown rule yields
`none`; the rule-2 decode below is present, so its address is present. -/
theorem c8_decode_total_witness :
    decodeRegister ⟨"w", 1, [0], none, none, none, none, none⟩
      (fun _ => none) = none ∧
    decodeRegister ⟨"w9", 9, [0], none, none, none, none, none⟩
      (fun _ => some 1) = none ∧
    (((fun a => if a = 0 then some 65535 else none) : Nat → Option Nat) 0).isSome
      = true := by
  refine ⟨(c8_decode_total ⟨"w", 1, [0], none, none, none, none, none⟩
            (fun _ => none)).1 ⟨0, by simp, rfl⟩,
          (c8_decode_total ⟨"w9", 9, [0], none, none, none, none, none⟩
            (fun _ => some 1)).2.1 (Or.inr (by norm_num)),
          (c8_decode_total ⟨"sg", 2, [0], none, none, none, none, none⟩
            (fun a => if a = 0 then some 65535 else none)).2.2
            (by simp [decodeRegister]) 0 (by simp)⟩

/-! ## Claims C5, C6 — register decode rules 1–4 -/

/-- The source's accumulation loop over `List.range` equals the spec's
direct sum (generic foldl-to-sum bridge). -/
theorem foldl_add_map (f : Nat → Nat) :
    ∀ (l : List Nat) (a : Nat),
      l.foldl (fun acc i => acc + f i) a = a + (l.map f).sum := by
  intro l
  induction l with
  | nil => intro a; simp
  | cons x xs ih =>
    intro a
    rw [List.foldl_cons, ih (a + f x)]
    simp [List.map_cons, List.sum_cons]
    omega

/-- Starting the index at `k` scales the whole sum by `2 ^ (16 k)`. -/
theorem specRawWordSum_shift (m : Nat → Option Nat) :
    ∀ (regs : List Nat) (k : Nat),
      specRawWordSum regs m k = 2 ^ (16 * k) * specRawWordSum regs m 0 := by
  intro regs
  induction regs with
  | nil => intro k; simp [specRawWordSum]
  | cons a rest ih =>
    intro k
    simp only [specRawWordSum]
    rw [ih (k + 1), ih 1]
    rw [show 16 * (k + 1) = 16 * k + 16 by ring, pow_add]
    ring

/-- The accumulation loop of `decodeRegister` computes exactly the spec's
low-word-first weighted sum. -/
theorem rawAccum_eq_spec (regs : List Nat) (m : Nat → Option Nat) :
    rawAccum regs m = specRawWordSum regs m 0 := by
  have key : ∀ (regs : List Nat),
      ((List.range regs.length).map
        (fun i => ((m (regs.getD i 0)).getD 0 % 65536) * 2 ^ (16 * i))).sum
      = specRawWordSum regs m 0 := by
    intro rs
    induction rs with
    | nil => simp [specRawWordSum]
    | cons a rest ih =>
      rw [List.length_cons, List.range_succ_eq_map]
      simp only [List.map_cons, List.sum_cons, List.map_map]
      have hfun : ((fun i => ((m ((a :: rest).getD i 0)).getD 0 % 65536)
            * 2 ^ (16 * i)) ∘ Nat.succ)
          = fun i => 2 ^ 16 * (((m (rest.getD i 0)).getD 0 % 65536)
            * 2 ^ (16 * i)) := by
        funext i
        simp only [Function.comp]
        rw [show (a :: rest).getD (Nat.succ i) 0 = rest.getD i 0 from rfl]
        rw [show 16 * Nat.succ i = 16 * i + 16 by omega, pow_add]
        ring
      rw [hfun, List.sum_map_mul_left, ih]
      simp only [specRawWordSum]
      rw [specRawWordSum_shift m rest 1,
        show (a :: rest).getD 0 0 = a from rfl]
  unfold rawAccum
  rw [foldl_add_map]
  simpa using key regs


/-- C5 (counterexample): for a rule-1 definition over three registers with
words `0, 0, 1`, the claim's untruncated sum is `2^32`, but `decodeRegister`
applies `raw >>> 0` and returns 0 — not the claimed `2^32`. -/
theorem c5_truncation_counterexample :
    specRawWordSum [0, 1, 2]
      (fun a => if a ≤ 1 then some 0 else if a = 2 then some 1 else none) 0
      = 2 ^ 32 ∧
    decodeRegister ⟨"c", 1, [0, 1, 2], none, none, none, none, none⟩
      (fun a => if a ≤ 1 then some 0 else if a = 2 then some 1 else none)
      = some (.num 0) ∧
    (0 : ℚ) ≠ ((2 ^ 32 : ℕ) : ℚ) := by
  refine ⟨by norm_num [specRawWordSum], ?_, by norm_num⟩
  norm_num [decodeRegister, rawAccum, List.range_succ]

/-- C5 (amended): for rules 1/3 with all addresses present, the decoded raw
value is the low-word-first sum `Σ (map[addr_i] & 0xFFFF) × 2^(16·i)`
*reduced modulo `2^32`* (the source's `raw >>> 0`); with a lookup table the
result is the first matching label, else `Unknown(raw)`; without one it is
`(raw − offset) × scale` with offset defaulting to 0 and scale to 1. -/
theorem c5_unsigned_decode (d : RegisterDef) (m : Nat → Option Nat)
    (h1 : d.rule = 1 ∨ d.rule = 3)
    (h2 : ∀ a ∈ d.registers, (m a).isSome = true) :
    (d.lookup = none →
      decodeRegister d m = some (.num
        ((((specRawWordSum d.registers m 0 % 2 ^ 32 : ℕ) : ℚ) - d.offset.getD 0)
          * d.scale.getD 1))) ∧
    (∀ entries, d.lookup = some entries →
      decodeRegister d m = some (.str
        ((lookupFind entries (specRawWordSum d.registers m 0 % 2 ^ 32)).getD
          ("Unknown(" ++ toString (specRawWordSum d.registers m 0 % 2 ^ 32)
            ++ ")")))) := by
  have hguard : (d.registers.any fun a => (m a).isNone) = false := by
    simp only [List.any_eq_false]
    intro a ha
    rcases hx : m a with _ | v
    · exact absurd (h2 a ha) (by simp [hx])
    · simp [hx]
  constructor
  · intro hl
    simp [decodeRegister, hguard, h1, hl, rawAccum_eq_spec]
  · intro entries hl
    simp only [decodeRegister, hguard, Bool.false_eq_true, if_false, h1,
      if_true, hl, rawAccum_eq_spec, iff_true]
    rcases hf : lookupFind entries (specRawWordSum d.registers m 0 % 2 ^ 32)
      with _ | v
    · simp [hf]
    · simp [hf]

/-- C5 (witness): the spec's own example — rule 1, register word 1617,
offset 1000, scale 0.1 — decodes to 61.7. -/
theorem c5_unsigned_decode_witness :
    decodeRegister ⟨"p", 1, [0], some (1/10), some 1000, none, none, none⟩
      (fun a => if a = 0 then some 1617 else none) = some (.num (617/10)) := by
  have h := (c5_unsigned_decode
    ⟨"p", 1, [0], some (1/10), some 1000, none, none, none⟩
    (fun a => if a = 0 then some 1617 else none) (Or.inl rfl)
    (by intro a ha; simp at ha; simp [ha])).1 rfl
  rw [h]
  norm_num [specRawWordSum]

/-- C6: for rules 2/4 with all addresses present, `decodeRegister`
accumulates the spec's untruncated low-word-first sum, sign-extends over
`16·N` bits (subtracting `2^(16N)` when `raw ≥ 2^(16N−1)`), and returns
`(raw − offset) × scale`. -/
theorem c6_signed_decode (d : RegisterDef) (m : Nat → Option Nat)
    (h1 : d.rule = 2 ∨ d.rule = 4)
    (h2 : ∀ a ∈ d.registers, (m a).isSome = true) :
    decodeRegister d m = some (.num
      (((((if 2 ^ (16 * d.registers.length - 1) ≤ specRawWordSum d.registers m 0
            then (specRawWordSum d.registers m 0 : ℤ)
              - 2 ^ (16 * d.registers.length)
            else (specRawWordSum d.registers m 0 : ℤ))) : ℚ)
        - d.offset.getD 0) * d.scale.getD 1)) := by
  have hguard : (d.registers.any fun a => (m a).isNone) = false := by
    simp only [List.any_eq_false]
    intro a ha
    rcases hx : m a with _ | v
    · exact absurd (h2 a ha) (by simp [hx])
    · simp [hx]
  have h13 : ¬(d.rule = 1 ∨ d.rule = 3) := by omega
  have hcond : (2 ^ (16 * d.registers.length) ≤ 2 * specRawWordSum d.registers m 0)
      ↔ (2 ^ (16 * d.registers.length - 1) ≤ specRawWordSum d.registers m 0) := by
    rcases Nat.eq_zero_or_pos d.registers.length with h0 | hpos
    · rw [h0]
      simp
      omega
    · have hw : 2 ^ (16 * d.registers.length)
          = 2 * 2 ^ (16 * d.registers.length - 1) := by
        have hp := pow_succ 2 (16 * d.registers.length - 1)
        rw [Nat.sub_add_cancel (by omega : 1 ≤ 16 * d.registers.length)] at hp
        omega
      omega
  simp [decodeRegister, hguard, h13, h1, rawAccum_eq_spec, hcond]

/-- C6 (witness): the spec's example — rule 2, single register word 0xFFFF,
offset 1000, scale 0.1 — sign-extends to −1 and decodes to −100.1. -/
theorem c6_signed_decode_witness :
    decodeRegister ⟨"t", 2, [0], some (1/10), some 1000, none, none, none⟩
      (fun a => if a = 0 then some 0xffff else none)
      = some (.num (-(1001/10))) := by
  have h := c6_signed_decode
    ⟨"t", 2, [0], some (1/10), some 1000, none, none, none⟩
    (fun a => if a = 0 then some 0xffff else none) (Or.inl rfl)
    (by intro a ha; simp at ha; simp [ha])
  rw [h]
  norm_num [specRawWordSum]

/-! ## Claim C4 — the request planner -/

/-- Every range the merge loop emits carries its group's function code. -/
theorem mergeRangesAux_fc (fc B : Nat) :
    ∀ (rest : List Nat) (s e : Nat) (r : ReadReq),
      r ∈ mergeRangesAux fc B s e rest → r.fc = fc := by
  intro rest
  induction rest with
  | nil =>
    intro s e r hr
    simp [mergeRangesAux] at hr
    rw [hr]
  | cons addr rest' ih =>
    intro s e r hr
    by_cases hext : addr - s < B
    · rw [show mergeRangesAux fc B s e (addr :: rest')
        = mergeRangesAux fc B s addr rest' from by
          simp [mergeRangesAux, hext]] at hr
      exact ih s addr r hr
    · rw [show mergeRangesAux fc B s e (addr :: rest')
        = ⟨fc, s, e - s + 1⟩ :: mergeRangesAux fc B addr addr rest' from by
          simp [mergeRangesAux, hext]] at hr
      rcases List.mem_cons.mp hr with h | h
      · rw [h]
      · exact ih addr addr r h

theorem mergeRangesAux_spec (fc B : Nat) (hB : 1 ≤ B) :
    ∀ (rest : List Nat) (s e : Nat), s ≤ e → e - s < B →
      List.Sorted (· < ·) (e :: rest) →
      (∀ r ∈ mergeRangesAux fc B s e rest,
        s ≤ r.start ∧ 1 ≤ r.count ∧ r.count ≤ B) ∧
      List.Pairwise (fun r1 r2 => r1.start + r1.count ≤ r2.start)
        (mergeRangesAux fc B s e rest) ∧
      (∀ a, s ≤ a → a ≤ e →
        (mergeRangesAux fc B s e rest).countP
          (fun r => decide (r.start ≤ a ∧ a < r.start + r.count)) = 1) ∧
      (∀ a ∈ rest,
        (mergeRangesAux fc B s e rest).countP
          (fun r => decide (r.start ≤ a ∧ a < r.start + r.count)) = 1) := by
  intro rest
  induction rest with
  | nil =>
    intro s e hse heB _
    refine ⟨?_, ?_, ?_, ?_⟩
    · intro r hr
      simp [mergeRangesAux] at hr
      rw [hr]
      exact ⟨show s ≤ s by omega, show 1 ≤ e - s + 1 by omega,
        show e - s + 1 ≤ B by omega⟩
    · simp [mergeRangesAux]
    · intro a ha1 ha2
      have hx : (s ≤ a ∧ a < s + (e - s + 1)) := ⟨ha1, by omega⟩
      simp [mergeRangesAux, List.countP_cons, hx]
    · intro a ha
      cases ha
  | cons addr rest' ih =>
    intro s e hse heB hsorted
    obtain ⟨hhead, htail⟩ := List.sorted_cons.mp hsorted
    have hea : e < addr := hhead addr (by simp)
    by_cases hext : addr - s < B
    · rw [show mergeRangesAux fc B s e (addr :: rest')
        = mergeRangesAux fc B s addr rest' from by
          simp [mergeRangesAux, hext]]
      have ih' := ih s addr (by omega) (by omega) htail
      refine ⟨ih'.1, ih'.2.1, ?_, ?_⟩
      · intro a ha1 ha2
        exact ih'.2.2.1 a ha1 (by omega)
      · intro a ha
        rcases List.mem_cons.mp ha with rfl | hmem
        · exact ih'.2.2.1 a (by omega) (le_refl _)
        · exact ih'.2.2.2 a hmem
    · rw [show mergeRangesAux fc B s e (addr :: rest')
        = ⟨fc, s, e - s + 1⟩ :: mergeRangesAux fc B addr addr rest' from by
          simp [mergeRangesAux, hext]]
      have haddr : s + B ≤ addr := by omega
      have ih' := ih addr addr (le_refl _) (by omega) htail
      have hstarts : ∀ r ∈ mergeRangesAux fc B addr addr rest', addr ≤ r.start :=
        fun r hr => (ih'.1 r hr).1
      refine ⟨?_, ?_, ?_, ?_⟩
      · intro r hr
        rcases List.mem_cons.mp hr with h | h
        · rw [h]
          exact ⟨show s ≤ s by omega, show 1 ≤ e - s + 1 by omega,
            show e - s + 1 ≤ B by omega⟩
        · have hb := ih'.1 r h
          exact ⟨by omega, hb.2.1, hb.2.2⟩
      · refine List.pairwise_cons.mpr ⟨?_, ih'.2.1⟩
        intro r hr
        have h1 := hstarts r hr
        show s + (e - s + 1) ≤ r.start
        omega
      · intro a ha1 ha2
        have h0 : (mergeRangesAux fc B addr addr rest').countP
            (fun r => decide (r.start ≤ a ∧ a < r.start + r.count)) = 0 := by
          rw [List.countP_eq_zero]
          intro r hr
          have h1 := hstarts r hr
          simp only [decide_eq_true_eq, not_and]
          intro h2
          omega
        have hx : (s ≤ a ∧ a < s + (e - s + 1)) := ⟨ha1, by omega⟩
        rw [List.countP_cons, h0]
        simp [hx]
      · intro a ha
        have hge : addr ≤ a := by
          rcases List.mem_cons.mp ha with rfl | hmem
          · exact le_refl _
          · exact le_of_lt ((List.sorted_cons.mp htail).1 a hmem)
        have hx : ¬(s ≤ a ∧ a < s + (e - s + 1)) := fun hcon => by omega
        rcases List.mem_cons.mp ha with rfl | hmem
        · rw [List.countP_cons, ih'.2.2.1 a (le_refl _) (le_refl _)]
          simp [hx]
        · rw [List.countP_cons, ih'.2.2.2 a hmem]
          simp [hx]

theorem mem_insertKey (l : List Nat) (k x : Nat) :
    x ∈ insertKey l k ↔ x ∈ l ∨ x = k := by
  unfold insertKey
  split_ifs with h
  · have hk : k ∈ l := by simpa using h
    constructor
    · exact Or.inl
    · rintro (hx | rfl)
      · exact hx
      · exact hk
  · simp [List.mem_append]

theorem nodup_insertKey (l : List Nat) (k : Nat) (h : l.Nodup) :
    (insertKey l k).Nodup := by
  unfold insertKey
  split_ifs with hc
  · exact h
  · have hk : k ∉ l := by simpa using hc
    simp [List.nodup_append, h, hk]

theorem mem_fcKeys_aux (x : Nat) :
    ∀ (defs : List RegisterDef) (acc : List Nat),
      x ∈ defs.foldl (fun acc d => insertKey acc (effFc d)) acc ↔
        x ∈ acc ∨ ∃ d ∈ defs, effFc d = x := by
  intro defs
  induction defs with
  | nil => intro acc; simp
  | cons d ds ih =>
    intro acc
    rw [List.foldl_cons, ih, mem_insertKey]
    constructor
    · rintro ((hx | rfl) | ⟨d', hd', he⟩)
      · exact Or.inl hx
      · exact Or.inr ⟨d, by simp, rfl⟩
      · exact Or.inr ⟨d', by simp [hd'], he⟩
    · rintro (hx | ⟨d', hd', he⟩)
      · exact Or.inl (Or.inl hx)
      · rcases List.mem_cons.mp hd' with rfl | hmem
        · exact Or.inl (Or.inr he.symm)
        · exact Or.inr ⟨d', hmem, he⟩

theorem mem_fcKeys (defs : List RegisterDef) (x : Nat) :
    x ∈ fcKeys defs ↔ ∃ d ∈ defs, effFc d = x := by
  unfold fcKeys
  rw [mem_fcKeys_aux]
  simp

theorem fcKeys_nodup (defs : List RegisterDef) : (fcKeys defs).Nodup := by
  have key : ∀ (ds : List RegisterDef) (acc : List Nat), acc.Nodup →
      (ds.foldl (fun acc d => insertKey acc (effFc d)) acc).Nodup := by
    intro ds
    induction ds with
    | nil => intro acc h; simpa using h
    | cons d ds ih =>
      intro acc h
      rw [List.foldl_cons]
      exact ih _ (nodup_insertKey _ _ h)
  exact key defs [] (by simp)

theorem mem_fcAddrList_aux (x fc : Nat) :
    ∀ (defs : List RegisterDef) (acc : List Nat),
      x ∈ defs.foldl
          (fun acc d => if effFc d = fc then acc ++ d.registers else acc) acc ↔
        x ∈ acc ∨ ∃ d ∈ defs, effFc d = fc ∧ x ∈ d.registers := by
  intro defs
  induction defs with
  | nil => intro acc; simp
  | cons d ds ih =>
    intro acc
    rw [List.foldl_cons, ih]
    by_cases hd : effFc d = fc
    · rw [if_pos hd]
      constructor
      · rintro (hx | ⟨d', hd', he⟩)
        · rcases List.mem_append.mp hx with hx | hx
          · exact Or.inl hx
          · exact Or.inr ⟨d, by simp, hd, hx⟩
        · exact Or.inr ⟨d', by simp [hd'], he⟩
      · rintro (hx | ⟨d', hd', he, hm⟩)
        · exact Or.inl (List.mem_append.mpr (Or.inl hx))
        · rcases List.mem_cons.mp hd' with rfl | hmem
          · exact Or.inl (List.mem_append.mpr (Or.inr hm))
          · exact Or.inr ⟨d', hmem, he, hm⟩
    · rw [if_neg hd]
      constructor
      · rintro (hx | ⟨d', hd', he⟩)
        · exact Or.inl hx
        · exact Or.inr ⟨d', by simp [hd'], he⟩
      · rintro (hx | ⟨d', hd', he, hm⟩)
        · exact Or.inl hx
        · rcases List.mem_cons.mp hd' with rfl | hmem
          · exact absurd he hd
          · exact Or.inr ⟨d', hmem, he, hm⟩

theorem mem_fcAddrList (defs : List RegisterDef) (fc x : Nat) :
    x ∈ fcAddrList defs fc ↔ ∃ d ∈ defs, effFc d = fc ∧ x ∈ d.registers := by
  unfold fcAddrList
  rw [mem_fcAddrList_aux]
  simp

theorem sortedAddrs_sorted (defs : List RegisterDef) (fc : Nat) :
    List.Sorted (· < ·) (sortedAddrs defs fc) := by
  have hs : List.Sorted (· ≤ ·) (sortedAddrs defs fc) :=
    List.sorted_insertionSort _ _
  have hn : (sortedAddrs defs fc).Nodup :=
    ((List.perm_insertionSort _ _).nodup_iff).mpr (List.nodup_dedup _)
  exact hs.lt_of_le hn

theorem mem_sortedAddrs (defs : List RegisterDef) (fc a : Nat) :
    a ∈ sortedAddrs defs fc ↔ a ∈ fcAddrList defs fc := by
  unfold sortedAddrs
  rw [(List.perm_insertionSort _ _).mem_iff, List.mem_dedup]

theorem countP_flatMap {α β : Type} (p : β → Bool) :
    ∀ (l : List α) (g : α → List β),
      (l.flatMap g).countP p = (l.map fun k => (g k).countP p).sum := by
  intro l g
  induction l with
  | nil => simp
  | cons x xs ih => simp [List.flatMap_cons, List.countP_append, ih]

theorem sum_single {α : Type} (h : α → Nat) :
    ∀ (l : List α) (f : α), l.Nodup → f ∈ l →
      (∀ k ∈ l, k ≠ f → h k = 0) → (l.map h).sum = h f := by
  intro l
  induction l with
  | nil => intro f _ hf; cases hf
  | cons x xs ih =>
    intro f hnd hf h0
    obtain ⟨hx, hnd'⟩ := List.pairwise_cons.mp hnd
    rcases List.mem_cons.mp hf with rfl | hmem
    · have hz : (xs.map h).sum = 0 := by
        apply List.sum_eq_zero
        intro y hy
        obtain ⟨k, hk, rfl⟩ := List.mem_map.mp hy
        exact h0 k (by simp [hk]) (fun hkf => (hx k hk) hkf.symm)
      simp [hz]
    · have hx0 : h x = 0 := h0 x (by simp) (hx f hmem)
      simp [hx0, ih f hnd' hmem (fun k hk hkf => h0 k (by simp [hk]) hkf)]

theorem fcRequests_fc (defs : List RegisterDef) (B f : Nat) :
    ∀ r ∈ fcRequests defs B f, r.fc = f := by
  intro r hr
  unfold fcRequests at hr
  cases hs : sortedAddrs defs f with
  | nil => rw [hs] at hr; simp at hr
  | cons a rest => rw [hs] at hr; exact mergeRangesAux_fc f B rest a a r hr

theorem filter_flatMap_fcRequests (defs : List RegisterDef) (B : Nat) :
    ∀ (l : List Nat), l.Nodup → ∀ f : Nat,
      (l.flatMap (fcRequests defs B)).filter (fun r => decide (r.fc = f))
        = if f ∈ l then fcRequests defs B f else [] := by
  intro l
  induction l with
  | nil => intro _ f; simp
  | cons k ks ih =>
    intro hnd f
    obtain ⟨hk, hnd'⟩ := List.pairwise_cons.mp hnd
    rw [List.flatMap_cons, List.filter_append, ih hnd' f]
    by_cases hf : f = k
    · subst hf
      have h1 : (fcRequests defs B f).filter (fun r => decide (r.fc = f))
          = fcRequests defs B f := by
        apply List.filter_eq_self.mpr
        intro r hr
        simp [fcRequests_fc defs B f r hr]
      have h2 : f ∉ ks := fun hmem => (hk f hmem) rfl
      simp [h1, h2]
    · have h1 : (fcRequests defs B k).filter (fun r => decide (r.fc = f))
          = [] := by
        rw [List.filter_eq_nil_iff]
        intro r hr
        simp [fcRequests_fc defs B k r hr]
        exact fun hkf => hf hkf.symm
      rw [h1]
      simp [List.mem_cons, hf]

/-- C4 (amended): for every collection of definitions with non-empty address
lists and every maximum batch size B ≥ 1, `buildReadRequests` emits requests
with 1 ≤ count ≤ B; for each function code the requests are ascending and
pairwise non-overlapping (each range ends before the next starts); and every
input address is covered by exactly one request of its function code.
(B = 0 is excluded: a range's count is always at least 1.) -/
theorem c4_planner (defs : List RegisterDef) (B : Nat) (hB : 1 ≤ B)
    (_hne : ∀ d ∈ defs, d.registers ≠ []) :
    (∀ r ∈ buildReadRequests defs B, 1 ≤ r.count ∧ r.count ≤ B) ∧
    (∀ f, ((buildReadRequests defs B).filter
        (fun r => decide (r.fc = f))).Pairwise
        (fun r1 r2 => r1.start + r1.count ≤ r2.start)) ∧
    (∀ d ∈ defs, ∀ a ∈ d.registers,
      (buildReadRequests defs B).countP
        (fun r => decide (r.fc = effFc d ∧ r.start ≤ a ∧ a < r.start + r.count))
        = 1) := by
  refine ⟨?_, ?_, ?_⟩
  · intro r hr
    unfold buildReadRequests at hr
    obtain ⟨f, hf, hrg⟩ := List.mem_flatMap.mp hr
    unfold fcRequests at hrg
    cases hs : sortedAddrs defs f with
    | nil => rw [hs] at hrg; simp at hrg
    | cons a rest =>
      rw [hs] at hrg
      have hsorted := sortedAddrs_sorted defs f
      rw [hs] at hsorted
      have hspec := mergeRangesAux_spec f B hB rest a a (le_refl a)
        (by omega) hsorted
      exact ⟨(hspec.1 r hrg).2.1, (hspec.1 r hrg).2.2⟩
  · intro f
    unfold buildReadRequests
    rw [filter_flatMap_fcRequests defs B (fcKeys defs) (fcKeys_nodup defs) f]
    split_ifs with hf
    · unfold fcRequests
      cases hs : sortedAddrs defs f with
      | nil => simp
      | cons a rest =>
        have hsorted := sortedAddrs_sorted defs f
        rw [hs] at hsorted
        exact (mergeRangesAux_spec f B hB rest a a (le_refl a)
          (by omega) hsorted).2.1
    · simp
  · intro d hd a ha
    have hfk : effFc d ∈ fcKeys defs := (mem_fcKeys defs _).mpr ⟨d, hd, rfl⟩
    have hmem : a ∈ sortedAddrs defs (effFc d) :=
      (mem_sortedAddrs defs _ a).mpr
        ((mem_fcAddrList defs _ a).mpr ⟨d, hd, rfl, ha⟩)
    unfold buildReadRequests
    rw [countP_flatMap]
    have hcnt : ∀ k ∈ fcKeys defs, k ≠ effFc d →
        (fcRequests defs B k).countP
          (fun r => decide (r.fc = effFc d ∧ r.start ≤ a ∧ a < r.start + r.count))
          = 0 := by
      intro k hk hkf
      rw [List.countP_eq_zero]
      intro r hr
      simp only [decide_eq_true_eq, not_and]
      intro hrf
      exact absurd ((fcRequests_fc defs B k r hr).symm.trans hrf) hkf
    have hinner : (fcRequests defs B (effFc d)).countP
        (fun r => decide (r.start ≤ a ∧ a < r.start + r.count)) = 1 := by
      unfold fcRequests
      cases hs : sortedAddrs defs (effFc d) with
      | nil => rw [hs] at hmem; cases hmem
      | cons a0 rest =>
        have hsorted := sortedAddrs_sorted defs (effFc d)
        rw [hs] at hsorted
        have hspec := mergeRangesAux_spec (effFc d) B hB rest a0 a0
          (le_refl _) (by omega) hsorted
        rw [hs] at hmem
        rcases List.mem_cons.mp hmem with rfl | hmem'
        · exact hspec.2.2.1 a (le_refl _) (le_refl _)
        · exact hspec.2.2.2 a hmem'
    have hcf : (fcRequests defs B (effFc d)).countP
        (fun r => decide (r.fc = effFc d ∧ r.start ≤ a ∧ a < r.start + r.count))
        = 1 := by
      rw [← hinner]
      apply List.countP_congr
      intro r hr
      simp [fcRequests_fc defs B (effFc d) r hr]
    rw [sum_single _ (fcKeys defs) (effFc d) (fcKeys_nodup defs) hfk hcnt, hcf]

/-- C4 (counterexample): with maximum batch size B = 0, the single-address
plan still emits a range of count 1, violating count ≤ B — the claim fails
for B = 0 (a count is always at least 1). -/
theorem c4_batch_counterexample :
    buildReadRequests [⟨"x", 1, [10], none, none, none, none, none⟩] 0
      = [⟨3, 10, 1⟩] ∧ ¬(1 ≤ 0) := ⟨rfl, by omega⟩

/-- C4 (witness): the plan for addresses 1, 50, 120 (holding) and 60 (input)
with B = 100. -/
theorem c4_planner_witness :
    (∀ r ∈ buildReadRequests
        [⟨"a", 1, [1, 50, 120], none, none, none, none, none⟩,
         ⟨"b", 1, [60], none, none, some 4, none, none⟩] 100,
      1 ≤ r.count ∧ r.count ≤ 100) ∧
    ((buildReadRequests
        [⟨"a", 1, [1, 50, 120], none, none, none, none, none⟩,
         ⟨"b", 1, [60], none, none, some 4, none, none⟩] 100).filter
      (fun r => decide (r.fc = 3))).Pairwise
        (fun r1 r2 => r1.start + r1.count ≤ r2.start) ∧
    (buildReadRequests
        [⟨"a", 1, [1, 50, 120], none, none, none, none, none⟩,
         ⟨"b", 1, [60], none, none, some 4, none, none⟩] 100).countP
      (fun r => decide (r.fc = 3 ∧ r.start ≤ 120 ∧ 120 < r.start + r.count))
      = 1 := by
  have h := c4_planner
    [⟨"a", 1, [1, 50, 120], none, none, none, none, none⟩,
     ⟨"b", 1, [60], none, none, some 4, none, none⟩] 100
    (by omega)
    (by intro d hd; simp at hd; rcases hd with rfl | rfl <;> simp)
  refine ⟨h.1, h.2.1 3, ?_⟩
  exact h.2.2 ⟨"a", 1, [1, 50, 120], none, none, none, none, none⟩
    (by simp) 120 (by simp)

end Deye
